import Mathlib

/-!
Shallow embedding of the KUDU parcel upgrade script
(`src/kudu/scripts/upgrade.py`): candidate selection, release-version
extraction, the stage driver with its polling loop, and cluster resolution.
The external Cloudera Manager API is modelled as explicit data: the parcel
list of the cluster, an oracle `env : Nat → ParcelStatus` giving the result
of the n-th status fetch of the run, and a lookup function for clusters.
Side effects (download / distribute / activate requests and status fetches)
are recorded as an event trace.
-/

namespace KuduUpgrade

/-- A parcel record as exposed by the management API: product name, full
version string, and lifecycle stage. -/
structure Parcel where
  product : String
  version : String
  stage : String
deriving Repr, DecidableEq

/-- The errors the script can raise (one constructor per `raise` site, plus
the two cluster-resolution failures). -/
inductive UpgErr where
  | malformedVersion (version : String)
  | noActivated
  | noCandidates (product version : String)
  | stageError (errors : List String)
  | stageTimeout (product version stage : String) (maxTime : Nat)
  | noClusters
  | ambiguousClusters
deriving Repr, DecidableEq

/-- Group 1 of `re.match("(\d+\.\d+\.\d+).*", v)` on the character list of
`v`: a maximal run of digits, a dot, a maximal run of digits, a dot, a
maximal run of digits, all at the very start of the string; `none` when the
pattern does not match. -/
def parseTriplet (l : List Char) : Option (List Char) :=
  let a := l.takeWhile Char.isDigit
  match l.dropWhile Char.isDigit with
  | [] => none
  | d1 :: r2 =>
    let b := r2.takeWhile Char.isDigit
    match r2.dropWhile Char.isDigit with
    | [] => none
    | d2 :: r4 =>
      let c := r4.takeWhile Char.isDigit
      if d1 = '.' ∧ d2 = '.' ∧ a ≠ [] ∧ b ≠ [] ∧ c ≠ [] then
        some (a ++ '.' :: (b ++ '.' :: c))
      else none

/-- `get_release_version` from the script: extract the leading
MAJOR.MINOR.PATCH triplet of a full version string, raising a
malformed-version error when the pattern does not match. -/
def get_release_version (full_version : String) : Except UpgErr String :=
  match parseTriplet full_version.data with
  | some g => .ok (String.mk g)
  | none => .error (.malformedVersion full_version)

/-- `release_versions_match` from the script: both extractions must succeed
(left one first, as Python evaluates the `==` operands left to right) and the
extracted releases are compared for equality. -/
def release_versions_match (parcel1 parcel2 : Parcel) : Except UpgErr Bool := do
  let r1 ← get_release_version parcel1.version
  let r2 ← get_release_version parcel2.version
  pure (r1 == r2)

/-- Python's `max(p :: ps, key=lambda p: p.version)`: the first element whose
version is lexicographically greatest (a later element replaces the running
maximum only when strictly greater). -/
def maxByVersion (p : Parcel) (ps : List Parcel) : Parcel :=
  ps.foldl (fun best q => if best.version < q.version then q else best) p

/-- The KUDU parcels of the cluster whose stage is ACTIVATED, in API order
(the `activated_parcels` list built by the partition loop). -/
def activatedOf (parcels : List Parcel) : List Parcel :=
  parcels.filter (fun p => p.product == "KUDU" && p.stage == "ACTIVATED")

/-- The KUDU parcels of the cluster whose stage is not ACTIVATED, in API
order (the `candidate_parcels` list built by the partition loop). -/
def candidatesOf (parcels : List Parcel) : List Parcel :=
  parcels.filter (fun p => p.product == "KUDU" && p.stage != "ACTIVATED")

/-- A Python list comprehension with a fallible condition: elements are
examined in order and the first raised error aborts the whole traversal. -/
def filterE (f : Parcel → Except UpgErr Bool) : List Parcel → Except UpgErr (List Parcel)
  | [] => .ok []
  | p :: ps => do
    let b ← f p
    let rest ← filterE f ps
    if b then pure (p :: rest) else pure rest

/-- The filtering condition of the candidate comprehension:
`release_versions_match(parcel, greatest_activated) and
parcel.version > greatest_activated.version`. -/
def upgradeCond (greatest_activated parcel : Parcel) : Except UpgErr Bool := do
  let m ← release_versions_match parcel greatest_activated
  pure (m && decide (greatest_activated.version < parcel.version))

/-- `get_best_upgrade_candidate_parcel` from the script, taking the
cluster's parcel list in place of the `cluster` handle. -/
def get_best_upgrade_candidate_parcel (parcels : List Parcel) : Except UpgErr Parcel :=
  match activatedOf parcels with
  | [] => .error .noActivated
  | a :: as =>
    let greatest_activated := maxByVersion a as
    do
      let cs ← filterE (upgradeCond greatest_activated) (candidatesOf parcels)
      match cs with
      | [] => .error (.noCandidates greatest_activated.product greatest_activated.version)
      | c :: rest => pure (maxByVersion c rest)

/-- The transient state carried by a freshly fetched parcel status. -/
structure ParcelState where
  errors : List String
  progress : Nat
  totalProgress : Nat
deriving Repr, DecidableEq

/-- The result of one `cluster.get_parcel(product, version)` call. -/
structure ParcelStatus where
  stage : String
  state : ParcelState
deriving Repr, DecidableEq

/-- The externally visible actions of the stage driver: one status fetch, or
one of the three one-shot transition requests. -/
inductive Event where
  | fetch
  | download
  | distribute
  | activate
deriving Repr, DecidableEq

/-- The polling loop of `wait_for_parcel_stage`, unrolled on the number of
remaining attempts. `env k` is the status returned by the run's k-th fetch
(the fetch counter `k` is threaded through and returned); `max_time` is the
original budget, kept only for the timeout message. Each attempt fetches the
status, succeeds when the observed stage equals the target, fails at once on
a non-empty error list, and otherwise retries; exhausting the attempts is
the `for...else` timeout. The one-second sleep between attempts is not
modelled. -/
def waitFrom (env : Nat → ParcelStatus) (parcel : Parcel) (stage : String)
    (max_time : Nat) : Nat → Nat → List Event × Nat × Except UpgErr Unit
  | 0, k => ([], k, .error (.stageTimeout parcel.product parcel.version stage max_time))
  | remaining + 1, k =>
    let new_parcel := env k
    if new_parcel.stage = stage then ([Event.fetch], k + 1, .ok ())
    else if new_parcel.state.errors ≠ [] then
      ([Event.fetch], k + 1, .error (.stageError new_parcel.state.errors))
    else
      let rec_result := waitFrom env parcel stage max_time remaining (k + 1)
      (Event.fetch :: rec_result.1, rec_result.2)

/-- `wait_for_parcel_stage` from the script: up to `max_time` polling
attempts starting at fetch counter `k`. -/
def wait_for_parcel_stage (env : Nat → ParcelStatus) (parcel : Parcel) (stage : String)
    (max_time : Nat) (k : Nat) : List Event × Nat × Except UpgErr Unit :=
  waitFrom env parcel stage max_time max_time k

/-- `ensure_parcel_activated` from the script: the linear stage machine.
The local `parcel_stage` variable starts at the parcel's observed stage; a
stage whose guard matches issues its one-shot request, waits for the target
stage, and advances `parcel_stage`; any wait failure aborts the run with the
events issued so far. -/
def ensure_parcel_activated (env : Nat → ParcelStatus) (parcel : Parcel)
    (max_time_per_stage : Nat) : List Event × Except UpgErr Unit :=
  let step1 :=
    if parcel.stage = "AVAILABLE_REMOTELY" then
      let w := wait_for_parcel_stage env parcel "DOWNLOADED" max_time_per_stage 0
      (Event.download :: w.1, w.2.1, w.2.2, "DOWNLOADED")
    else ([], 0, Except.ok (), parcel.stage)
  match step1.2.2.1 with
  | .error e => (step1.1, .error e)
  | .ok _ =>
    let step2 :=
      if step1.2.2.2 = "DOWNLOADED" then
        let w := wait_for_parcel_stage env parcel "DISTRIBUTED" max_time_per_stage step1.2.1
        (Event.distribute :: w.1, w.2.1, w.2.2, "DISTRIBUTED")
      else ([], step1.2.1, Except.ok (), step1.2.2.2)
    match step2.2.2.1 with
    | .error e => (step1.1 ++ step2.1, .error e)
    | .ok _ =>
      if step2.2.2.2 = "DISTRIBUTED" then
        let w := wait_for_parcel_stage env parcel "ACTIVATED" max_time_per_stage step2.2.1
        (step1.1 ++ step2.1 ++ Event.activate :: w.1, w.2.2)
      else (step1.1 ++ step2.1, .ok ())

/-- A cluster handle: its API name and its display name. -/
structure Cluster where
  name : String
  displayName : String
deriving Repr, DecidableEq

/-- `find_cluster` from the script. `get_cluster` is the external lookup
(its failure is the API's, delegated); the returned list holds the printed
lines. Python's `if cluster_name:` is truthy, so both `None` and the empty
string take the enumeration path. -/
def find_cluster (get_cluster : String → Except UpgErr Cluster)
    (all_clusters : List Cluster) (cluster_name : Option String) :
    List String × Except UpgErr Cluster :=
  if cluster_name.getD "" ≠ "" then
    ([], get_cluster (cluster_name.getD ""))
  else
    match all_clusters with
    | [] => ([], .error .noClusters)
    | [cluster] => (["Found cluster: " ++ cluster.displayName], .ok cluster)
    | _ => ([], .error .ambiguousClusters)

/-- A nonempty run of digit characters. -/
def digitRun (l : List Char) : Prop := l ≠ [] ∧ ∀ c ∈ l, c.isDigit

/-- The string matches the leading `\d+\.\d+\.\d+` pattern: it decomposes
into three nonempty digit runs separated by dots, followed by anything. -/
def matchesTriplet (v : String) : Prop :=
  ∃ a b c rest, v.data = a ++ '.' :: (b ++ '.' :: (c ++ rest)) ∧
    digitRun a ∧ digitRun b ∧ digitRun c

/-- Release extraction succeeds on this version string. -/
def versionOk (v : String) : Bool :=
  match get_release_version v with
  | .ok _ => true
  | .error _ => false

/-- Both version strings extract successfully and to the same release. -/
def sameReleaseB (v w : String) : Bool :=
  match get_release_version v, get_release_version w with
  | .ok r, .ok s => r == s
  | _, _ => false

/-- The pure Boolean version of the candidate condition, meaningful when all
the involved versions extract successfully. -/
def condB (greatest_activated parcel : Parcel) : Bool :=
  sameReleaseB parcel.version greatest_activated.version &&
    decide (greatest_activated.version < parcel.version)

/-- A fixed external lookup used to instantiate cluster-resolution
statements on concrete inputs. -/
def c9Lookup : String → Except UpgErr Cluster := fun _ => .ok ⟨"c0", "C0"⟩

/-- A parcel used to instantiate driver statements on concrete inputs. -/
def pX : Parcel := ⟨"KUDU", "1.4.0-2", "DOWNLOADED"⟩

/-- A status source whose every fetch reports the DISTRIBUTED stage. -/
def envHit : Nat → ParcelStatus := fun _ => ⟨"DISTRIBUTED", ⟨[], 0, 0⟩⟩

/-- A status source whose every fetch reports a non-empty error list. -/
def envFail : Nat → ParcelStatus := fun _ => ⟨"DOWNLOADED", ⟨["boom"], 0, 0⟩⟩

/-- A status source stuck at the DOWNLOADED stage with no errors. -/
def envStuck : Nat → ParcelStatus := fun _ => ⟨"DOWNLOADED", ⟨[], 0, 0⟩⟩

/-- A status source that reports DOWNLOADED on the first fetch (no errors)
and DISTRIBUTED from the second fetch on. -/
def envSecond : Nat → ParcelStatus := fun n =>
  if n = 0 then ⟨"DOWNLOADED", ⟨[], 0, 0⟩⟩ else ⟨"DISTRIBUTED", ⟨[], 0, 0⟩⟩

/-- C6: with no ACTIVATED KUDU parcel, selection fails with the no-baseline
error, whatever the other records are. -/
theorem c6_no_activated_fails (parcels : List Parcel)
    (h : activatedOf parcels = []) :
    get_best_upgrade_candidate_parcel parcels = .error .noActivated := by
  unfold get_best_upgrade_candidate_parcel
  rw [h]

/-- Witness for C6: a concrete parcel set with candidates but no ACTIVATED
record. -/
theorem c6_witness :
    get_best_upgrade_candidate_parcel
      [⟨"KUDU", "1.4.0-2", "DOWNLOADED"⟩, ⟨"KUDU", "bad", "AVAILABLE_REMOTELY"⟩] =
      .error .noActivated :=
  c6_no_activated_fails _ (by decide)

/-- C10: a parcel whose observed stage at entry is none of
AVAILABLE_REMOTELY, DOWNLOADED, DISTRIBUTED (in particular ACTIVATED) makes
the driver issue no request, perform no fetch, and return successfully. -/
theorem c10_terminal_stage_noop (env : Nat → ParcelStatus) (parcel : Parcel)
    (max_time_per_stage : Nat)
    (h1 : parcel.stage ≠ "AVAILABLE_REMOTELY")
    (h2 : parcel.stage ≠ "DOWNLOADED")
    (h3 : parcel.stage ≠ "DISTRIBUTED") :
    ensure_parcel_activated env parcel max_time_per_stage = ([], .ok ()) := by
  unfold ensure_parcel_activated
  simp [h1, h2, h3]

/-- Witness for C10: a concrete ACTIVATED parcel. -/
theorem c10_witness :
    ensure_parcel_activated envStuck ⟨"KUDU", "1.4.0-2", "ACTIVATED"⟩ 5 = ([], .ok ()) :=
  c10_terminal_stage_noop envStuck _ 5 (by decide) (by decide) (by decide)

/-- C5: on any single polling attempt (any remaining budget `r + 1`, any
fetch counter `k`): if the freshly fetched status's stage equals the target,
the wait succeeds immediately with that one fetch; otherwise a non-empty
error list on the fetched status fails the wait immediately, surfacing the
error payload, with no further fetches. -/
theorem c5_poll_attempt (env : Nat → ParcelStatus) (parcel : Parcel)
    (stage : String) (max_time r k : Nat) :
    ((env k).stage = stage →
      waitFrom env parcel stage max_time (r + 1) k = ([Event.fetch], k + 1, .ok ())) ∧
    ((env k).stage ≠ stage → (env k).state.errors ≠ [] →
      waitFrom env parcel stage max_time (r + 1) k =
        ([Event.fetch], k + 1, .error (.stageError (env k).state.errors))) := by
  constructor
  · intro h
    simp [waitFrom, h]
  · intro h he
    simp [waitFrom, h, he]

/-- Witness for C5: one attempt that hits the target stage at once, and one
that aborts at once on a reported error. -/
theorem c5_witness :
    waitFrom envHit pX "DISTRIBUTED" 5 4 0 = ([Event.fetch], 1, .ok ()) ∧
    waitFrom envFail pX "DISTRIBUTED" 5 4 0 =
      ([Event.fetch], 1, .error (.stageError ["boom"])) :=
  ⟨(c5_poll_attempt envHit pX "DISTRIBUTED" 5 3 0).1 rfl,
   (c5_poll_attempt envFail pX "DISTRIBUTED" 5 3 0).2 (by decide) (by decide)⟩

/-- Python's `max` result is one of the collection's elements. -/
theorem maxByVersion_mem : ∀ (ps : List Parcel) (p : Parcel), maxByVersion p ps ∈ p :: ps := by
  intro ps
  induction ps with
  | nil =>
    intro p
    simp [maxByVersion]
  | cons q qs ih =>
    intro p
    show maxByVersion (if p.version < q.version then q else p) qs ∈ _
    by_cases h : p.version < q.version
    · rw [if_pos h]
      have := ih q
      simp only [List.mem_cons] at this ⊢
      tauto
    · rw [if_neg h]
      have := ih p
      simp only [List.mem_cons] at this ⊢
      tauto

/-- Python's `max` result has the greatest version among the collection. -/
theorem maxByVersion_ge : ∀ (ps : List Parcel) (p x : Parcel), x ∈ p :: ps →
    x.version ≤ (maxByVersion p ps).version := by
  intro ps
  induction ps with
  | nil =>
    intro p x hx
    simp at hx
    subst hx
    simp [maxByVersion]
  | cons q qs ih =>
    intro p x hx
    show x.version ≤ (maxByVersion (if p.version < q.version then q else p) qs).version
    by_cases h : p.version < q.version
    · rw [if_pos h]
      rcases List.mem_cons.mp hx with heq | hx2
      · subst heq
        exact le_trans (le_of_lt h) (ih q q (List.mem_cons_self q qs))
      · exact ih q x hx2
    · rw [if_neg h]
      rcases List.mem_cons.mp hx with heq | hx2
      · subst heq
        exact ih x x (List.mem_cons_self x qs)
      · rcases List.mem_cons.mp hx2 with heq | hx3
        · subst heq
          exact le_trans (le_of_not_lt h) (ih p p (List.mem_cons_self p qs))
        · exact ih p x (List.mem_cons.mpr (Or.inr hx3))

/-- `versionOk` is exactly success of release extraction. -/
theorem versionOk_iff (v : String) :
    versionOk v = true ↔ ∃ r, get_release_version v = .ok r := by
  unfold versionOk
  cases h : get_release_version v <;> simp

/-- Release extraction either succeeds or raises the malformed-version
error carrying the examined string itself. -/
theorem grv_shape (v : String) :
    (∃ r, get_release_version v = .ok r) ∨
    get_release_version v = .error (.malformedVersion v) := by
  unfold get_release_version
  cases parseTriplet v.data <;> simp

/-- A version failing `versionOk` makes release extraction raise the
malformed-version error naming it. -/
theorem versionOk_false_grv (v : String) (h : versionOk v = false) :
    get_release_version v = .error (.malformedVersion v) := by
  rcases grv_shape v with ⟨r, hr⟩ | hr
  · have := (versionOk_iff v).mpr ⟨r, hr⟩
    rw [h] at this
    cases this
  · exact hr

/-- `sameReleaseB` holds exactly when both extractions succeed and agree. -/
theorem sameReleaseB_true_iff (v w : String) :
    sameReleaseB v w = true ↔
      ∃ r, get_release_version v = .ok r ∧ get_release_version w = .ok r := by
  unfold sameReleaseB
  cases hv : get_release_version v <;> cases hw : get_release_version w <;> simp
  exact eq_comm

/-- The Boolean reading of the candidate condition. -/
theorem condB_iff (greatest parcel : Parcel) :
    condB greatest parcel = true ↔
      sameReleaseB parcel.version greatest.version = true ∧
      greatest.version < parcel.version := by
  unfold condB
  simp

/-- The fallible candidate condition computes `condB` when both versions
extract successfully. -/
theorem upgradeCond_eq (greatest parcel : Parcel) (r s : String)
    (hp : get_release_version parcel.version = .ok r)
    (hg : get_release_version greatest.version = .ok s) :
    upgradeCond greatest parcel = .ok (condB greatest parcel) := by
  simp [upgradeCond, release_versions_match, condB, sameReleaseB, hp, hg,
    Bind.bind, Except.bind, pure, Except.pure]

/-- A candidate whose own version is malformed aborts the condition. -/
theorem upgradeCond_err_parcel (greatest parcel : Parcel)
    (hp : versionOk parcel.version = false) :
    upgradeCond greatest parcel = .error (.malformedVersion parcel.version) := by
  have h := versionOk_false_grv _ hp
  simp [upgradeCond, release_versions_match, h, Bind.bind, Except.bind]

/-- A well-formed candidate compared against a malformed baseline aborts
the condition with the baseline's malformed-version error. -/
theorem upgradeCond_err_greatest (greatest parcel : Parcel) (r : String)
    (hp : get_release_version parcel.version = .ok r)
    (hg : versionOk greatest.version = false) :
    upgradeCond greatest parcel = .error (.malformedVersion greatest.version) := by
  have h := versionOk_false_grv _ hg
  simp [upgradeCond, release_versions_match, hp, h, Bind.bind, Except.bind]

/-- When the fallible condition never raises, the comprehension is the pure
filter. -/
theorem filterE_ok (f : Parcel → Except UpgErr Bool) (g : Parcel → Bool) :
    ∀ l : List Parcel, (∀ p ∈ l, f p = .ok (g p)) →
      filterE f l = .ok (l.filter g) := by
  intro l
  induction l with
  | nil =>
    intro _
    rfl
  | cons p ps ih =>
    intro h
    have hp := h p (List.mem_cons_self p ps)
    have hr := ih (fun q hq => h q (List.mem_cons_of_mem p hq))
    simp [filterE, hp, hr, List.filter_cons, Bind.bind, Except.bind, pure, Except.pure]
    by_cases hg : g p <;> simp [hg]

/-- If some examined version string is malformed — a candidate's, or the
baseline's while at least one candidate forces its examination — the
comprehension aborts with a malformed-version error carrying a string that
itself fails extraction. -/
theorem filterE_malformed (greatest : Parcel) :
    ∀ l : List Parcel,
      ((∃ p ∈ l, versionOk p.version = false) ∨
        (versionOk greatest.version = false ∧ l ≠ [])) →
      ∃ v, filterE (upgradeCond greatest) l = .error (.malformedVersion v) ∧
        versionOk v = false := by
  intro l
  induction l with
  | nil =>
    intro h
    rcases h with ⟨p, hp, _⟩ | ⟨_, hne⟩
    · exact absurd hp (List.not_mem_nil p)
    · exact absurd rfl hne
  | cons p ps ih =>
    intro h
    by_cases hp : versionOk p.version = false
    · refine ⟨p.version, ?_, hp⟩
      simp [filterE, upgradeCond_err_parcel greatest p hp, Bind.bind, Except.bind]
    · have hpok : versionOk p.version = true := by
        cases hb : versionOk p.version
        · exact absurd hb hp
        · rfl
      rcases (versionOk_iff _).mp hpok with ⟨r, hr⟩
      by_cases hg : versionOk greatest.version = false
      · refine ⟨greatest.version, ?_, hg⟩
        simp [filterE, upgradeCond_err_greatest greatest p r hr hg,
          Bind.bind, Except.bind]
      · have hgok : versionOk greatest.version = true := by
          cases hb : versionOk greatest.version
          · exact absurd hb hg
          · rfl
        rcases (versionOk_iff _).mp hgok with ⟨s, hs⟩
        have hcond := upgradeCond_eq greatest p r s hr hs
        have hps : (∃ q ∈ ps, versionOk q.version = false) ∨
            (versionOk greatest.version = false ∧ ps ≠ []) := by
          rcases h with ⟨q, hq, hqf⟩ | ⟨hgf, _⟩
          · rcases List.mem_cons.mp hq with rfl | hq2
            · exact absurd hqf hp
            · exact Or.inl ⟨q, hq2, hqf⟩
          · exact absurd hgf hg
        rcases ih hps with ⟨v, hv, hvf⟩
        refine ⟨v, ?_, hvf⟩
        simp [filterE, hcond, hv, Bind.bind, Except.bind]

/-- Members of the ACTIVATED partition carry the KUDU product. -/
theorem mem_activated_product (parcels : List Parcel) (p : Parcel)
    (hp : p ∈ activatedOf parcels) : p.product = "KUDU" := by
  unfold activatedOf at hp
  have h := (List.mem_filter.mp hp).2
  simp [Bool.and_eq_true] at h
  exact h.1

/-- With all examined versions well formed, selection reduces to the pure
filter followed by the lexicographic max (or the no-candidate error). -/
theorem selection_eq (parcels : List Parcel) (a : Parcel) (as : List Parcel)
    (ha : activatedOf parcels = a :: as)
    (hwf : ∀ p ∈ candidatesOf parcels, versionOk p.version = true)
    (hg : versionOk (maxByVersion a as).version = true) :
    get_best_upgrade_candidate_parcel parcels =
      match (candidatesOf parcels).filter (condB (maxByVersion a as)) with
      | [] => .error (.noCandidates (maxByVersion a as).product (maxByVersion a as).version)
      | c :: rest => .ok (maxByVersion c rest) := by
  have hfil : filterE (upgradeCond (maxByVersion a as)) (candidatesOf parcels) =
      .ok ((candidatesOf parcels).filter (condB (maxByVersion a as))) := by
    apply filterE_ok
    intro p hp
    rcases (versionOk_iff _).mp (hwf p hp) with ⟨r, hr⟩
    rcases (versionOk_iff _).mp hg with ⟨s, hs⟩
    exact upgradeCond_eq _ p r s hr hs
  simp only [get_best_upgrade_candidate_parcel, ha]
  rw [hfil]
  simp [Bind.bind, Except.bind, pure, Except.pure]

/-- A concrete parcel set on which the unamended C1 fails: the greater
same-release candidate "1.4.0-2" exists, but the unrelated candidate with
the malformed version "bad" aborts the comprehension first. -/
def cexParcels : List Parcel :=
  [⟨"KUDU", "1.4.0-1", "ACTIVATED"⟩, ⟨"KUDU", "1.4.0-2", "DOWNLOADED"⟩,
   ⟨"KUDU", "bad", "DOWNLOADED"⟩]

/-- A concrete parcel set on which the unamended C7 fails: no candidate
matches the baseline's release, yet selection raises the malformed-version
error for "bad" instead of the no-candidate error. -/
def cex7Parcels : List Parcel :=
  [⟨"KUDU", "1.4.0-1", "ACTIVATED"⟩, ⟨"KUDU", "bad", "DOWNLOADED"⟩]

/-- The activated baseline of the concrete selection examples. -/
def baseP : Parcel := ⟨"KUDU", "1.4.0-1", "ACTIVATED"⟩

/-- A same-release lexicographic upgrade of `baseP`. -/
def candP : Parcel := ⟨"KUDU", "1.4.0-2", "DOWNLOADED"⟩

/-- A same-release lexicographic downgrade of `baseP`. -/
def downP : Parcel := ⟨"KUDU", "1.4.0-0", "DOWNLOADED"⟩

/-- A concrete parcel set satisfying the amended C1's hypotheses. -/
def okParcels : List Parcel := [baseP, candP]

/-- A concrete parcel set satisfying the amended C7's hypotheses: the sole
candidate shares the baseline's release but is a lexicographic downgrade. -/
def ok7Parcels : List Parcel := [baseP, downP]

/-- C1 as amended: when every non-ACTIVATED KUDU record's version extracts
successfully, and some non-ACTIVATED record shares the release of the
greatest activated baseline `b` while exceeding it lexicographically,
selection returns a candidate satisfying those two conditions whose version
is greatest among all such candidates. -/
theorem c1_best_candidate (parcels : List Parcel) (a : Parcel) (as : List Parcel)
    (ha : activatedOf parcels = a :: as)
    (hwf : ∀ p ∈ candidatesOf parcels, versionOk p.version = true)
    (b : Parcel) (hb : b ∈ activatedOf parcels)
    (hbmax : ∀ x ∈ activatedOf parcels, x.version ≤ b.version)
    (hex : ∃ c ∈ candidatesOf parcels,
      sameReleaseB c.version b.version = true ∧ b.version < c.version) :
    ∃ best, get_best_upgrade_candidate_parcel parcels = .ok best ∧
      best ∈ candidatesOf parcels ∧
      sameReleaseB best.version b.version = true ∧ b.version < best.version ∧
      ∀ d ∈ candidatesOf parcels,
        sameReleaseB d.version b.version = true → b.version < d.version →
        d.version ≤ best.version := by
  obtain ⟨c, hc, hcrel, hclt⟩ := hex
  have hgrmem : maxByVersion a as ∈ activatedOf parcels := by
    rw [ha]
    exact maxByVersion_mem as a
  have hgrmax : ∀ x ∈ activatedOf parcels, x.version ≤ (maxByVersion a as).version := by
    intro x hx
    rw [ha] at hx
    exact maxByVersion_ge as a x hx
  have hbv : b.version = (maxByVersion a as).version :=
    le_antisymm (hgrmax b hb) (hbmax _ hgrmem)
  have hgok : versionOk (maxByVersion a as).version = true := by
    rw [← hbv]
    rcases (sameReleaseB_true_iff _ _).mp hcrel with ⟨r, _, hbr⟩
    exact (versionOk_iff _).mpr ⟨r, hbr⟩
  have hsel := selection_eq parcels a as ha hwf hgok
  have hcond : condB (maxByVersion a as) c = true := by
    rw [condB_iff, ← hbv]
    exact ⟨hcrel, hclt⟩
  have hcf : c ∈ (candidatesOf parcels).filter (condB (maxByVersion a as)) :=
    List.mem_filter.mpr ⟨hc, hcond⟩
  cases hf : (candidatesOf parcels).filter (condB (maxByVersion a as)) with
  | nil =>
    rw [hf] at hcf
    exact absurd hcf (List.not_mem_nil c)
  | cons c0 rest =>
    rw [hf] at hsel
    have hmem : maxByVersion c0 rest ∈ c0 :: rest := maxByVersion_mem rest c0
    rw [← hf] at hmem
    have hbest := List.mem_filter.mp hmem
    have hbcond := (condB_iff _ _).mp hbest.2
    refine ⟨maxByVersion c0 rest, hsel, hbest.1, ?_, ?_, ?_⟩
    · rw [hbv]
      exact hbcond.1
    · rw [hbv]
      exact hbcond.2
    · intro d hd hrel hlt
      rw [hbv] at hrel hlt
      have hdf : d ∈ c0 :: rest := by
        rw [← hf]
        exact List.mem_filter.mpr ⟨hd, (condB_iff _ _).mpr ⟨hrel, hlt⟩⟩
      exact maxByVersion_ge rest c0 d hdf

/-- Witness for C1: the two-parcel set where "1.4.0-2" upgrades "1.4.0-1". -/
theorem c1_witness :
    ∃ best, get_best_upgrade_candidate_parcel okParcels = .ok best ∧
      best ∈ candidatesOf okParcels ∧
      sameReleaseB best.version baseP.version = true ∧ baseP.version < best.version ∧
      ∀ d ∈ candidatesOf okParcels,
        sameReleaseB d.version baseP.version = true → baseP.version < d.version →
        d.version ≤ best.version :=
  c1_best_candidate okParcels baseP [] (by decide) (by decide) baseP (by decide)
    (by
      intro x hx
      have hact : activatedOf okParcels = [baseP] := by decide
      rw [hact] at hx
      have hxb : x = baseP := by simpa using hx
      rw [hxb])
    ⟨candP, by decide, by decide, String.lt_iff_toList_lt.mpr (by decide)⟩

/-- Counterexample for C1 as stated: `cexParcels` has an ACTIVATED baseline
and a greater same-release candidate, yet selection raises the
malformed-version error for the unrelated record "bad" instead of
returning "1.4.0-2". -/
theorem c1_counterexample :
    activatedOf cexParcels = [⟨"KUDU", "1.4.0-1", "ACTIVATED"⟩] ∧
    (⟨"KUDU", "1.4.0-2", "DOWNLOADED"⟩ : Parcel) ∈ candidatesOf cexParcels ∧
    sameReleaseB "1.4.0-2" "1.4.0-1" = true ∧
    ("1.4.0-1" : String) < "1.4.0-2" ∧
    get_best_upgrade_candidate_parcel cexParcels = .error (.malformedVersion "bad") ∧
    get_best_upgrade_candidate_parcel cexParcels ≠
      .ok ⟨"KUDU", "1.4.0-2", "DOWNLOADED"⟩ := by
  refine ⟨by decide, by decide, by decide, String.lt_iff_toList_lt.mpr (by decide),
    rfl, fun h => ?_⟩
  rw [show get_best_upgrade_candidate_parcel cexParcels =
    .error (.malformedVersion "bad") from rfl] at h
  cases h

/-- C2: whenever a malformed version string is among those the candidate
comprehension examines — some candidate's version, or the baseline's
version while a candidate forces its examination — selection aborts with a
malformed-version error whose carried string itself fails extraction. -/
theorem c2_malformed_aborts (parcels : List Parcel) (a : Parcel) (as : List Parcel)
    (ha : activatedOf parcels = a :: as)
    (hbad : (∃ c ∈ candidatesOf parcels, versionOk c.version = false) ∨
      (versionOk (maxByVersion a as).version = false ∧ candidatesOf parcels ≠ [])) :
    ∃ v, get_best_upgrade_candidate_parcel parcels = .error (.malformedVersion v) ∧
      versionOk v = false := by
  rcases filterE_malformed (maxByVersion a as) (candidatesOf parcels) hbad with ⟨v, hv, hvf⟩
  refine ⟨v, ?_, hvf⟩
  simp only [get_best_upgrade_candidate_parcel, ha]
  rw [hv]
  rfl

/-- Witness for C2: the candidate "bad" is examined and malformed. -/
theorem c2_witness :
    ∃ v, get_best_upgrade_candidate_parcel cex7Parcels = .error (.malformedVersion v) ∧
      versionOk v = false :=
  c2_malformed_aborts cex7Parcels ⟨"KUDU", "1.4.0-1", "ACTIVATED"⟩ [] (by decide)
    (Or.inl ⟨⟨"KUDU", "bad", "DOWNLOADED"⟩, by decide, by decide⟩)

/-- C7 as amended: with an ACTIVATED baseline whose version extracts
successfully and all candidates' versions extracting successfully, if no
candidate both shares the baseline's release and exceeds it
lexicographically, selection fails with the no-candidate error naming the
baseline's product and version. -/
theorem c7_no_candidates (parcels : List Parcel) (a : Parcel) (as : List Parcel)
    (ha : activatedOf parcels = a :: as)
    (hwf : ∀ p ∈ candidatesOf parcels, versionOk p.version = true)
    (b : Parcel) (hb : b ∈ activatedOf parcels)
    (hbmax : ∀ x ∈ activatedOf parcels, x.version ≤ b.version)
    (hbok : versionOk b.version = true)
    (hnone : ∀ c ∈ candidatesOf parcels,
      ¬(sameReleaseB c.version b.version = true ∧ b.version < c.version)) :
    get_best_upgrade_candidate_parcel parcels =
      .error (.noCandidates b.product b.version) := by
  have hgrmem : maxByVersion a as ∈ activatedOf parcels := by
    rw [ha]
    exact maxByVersion_mem as a
  have hgrmax : ∀ x ∈ activatedOf parcels, x.version ≤ (maxByVersion a as).version := by
    intro x hx
    rw [ha] at hx
    exact maxByVersion_ge as a x hx
  have hbv : b.version = (maxByVersion a as).version :=
    le_antisymm (hgrmax b hb) (hbmax _ hgrmem)
  have hgok : versionOk (maxByVersion a as).version = true := by
    rw [← hbv]
    exact hbok
  have hfil : (candidatesOf parcels).filter (condB (maxByVersion a as)) = [] := by
    apply List.filter_eq_nil_iff.mpr
    intro c hc hcond
    obtain ⟨h1, h2⟩ := (condB_iff _ _).mp hcond
    apply hnone c hc
    rw [hbv]
    exact ⟨h1, h2⟩
  have hsel := selection_eq parcels a as ha hwf hgok
  rw [hfil] at hsel
  rw [hsel]
  have hprod : b.product = (maxByVersion a as).product := by
    rw [mem_activated_product parcels b hb, mem_activated_product parcels _ hgrmem]
  rw [hbv, hprod]

/-- Witness for C7: the sole candidate is a same-release downgrade. -/
theorem c7_witness :
    get_best_upgrade_candidate_parcel ok7Parcels =
      .error (.noCandidates baseP.product baseP.version) :=
  c7_no_candidates ok7Parcels baseP [] (by decide) (by decide) baseP (by decide)
    (by
      intro x hx
      have hact : activatedOf ok7Parcels = [baseP] := by decide
      rw [hact] at hx
      have hxb : x = baseP := by simpa using hx
      rw [hxb])
    (by decide)
    (by
      intro c hc
      have hcand : candidatesOf ok7Parcels = [downP] := by decide
      rw [hcand] at hc
      have hcd : c = downP := by simpa using hc
      subst hcd
      intro hand
      exact absurd (String.lt_iff_toList_lt.mp hand.2) (by decide))

/-- Counterexample for C7 as stated: on `cex7Parcels` no candidate shares
the baseline's release (the sole candidate's version "bad" does not even
extract), yet selection raises the malformed-version error rather than the
no-candidate error naming the baseline. -/
theorem c7_counterexample :
    activatedOf cex7Parcels = [⟨"KUDU", "1.4.0-1", "ACTIVATED"⟩] ∧
    candidatesOf cex7Parcels = [⟨"KUDU", "bad", "DOWNLOADED"⟩] ∧
    sameReleaseB "bad" "1.4.0-1" = false ∧
    get_best_upgrade_candidate_parcel cex7Parcels = .error (.malformedVersion "bad") ∧
    get_best_upgrade_candidate_parcel cex7Parcels ≠
      .error (.noCandidates "KUDU" "1.4.0-1") := by
  refine ⟨by decide, by decide, by decide, rfl, fun h => ?_⟩
  rw [show get_best_upgrade_candidate_parcel cex7Parcels =
    .error (.malformedVersion "bad") from rfl] at h
  exact absurd (Except.error.inj h) (by decide)

/-- A digit run followed by a dot splits cleanly under `takeWhile`. -/
theorem takeWhile_digits_append (r : List Char) :
    ∀ a : List Char, (∀ c ∈ a, Char.isDigit c) →
      (a ++ '.' :: r).takeWhile Char.isDigit = a ∧
      (a ++ '.' :: r).dropWhile Char.isDigit = '.' :: r := by
  intro a
  induction a with
  | nil =>
    intro _
    have hd : Char.isDigit '.' = false := by decide
    constructor <;> simp [List.takeWhile_cons, List.dropWhile_cons, hd]
  | cons x xs ih =>
    intro ha
    have hx : Char.isDigit x = true := ha x (List.mem_cons_self x xs)
    have ihr := ih (fun c hc => ha c (List.mem_cons_of_mem x hc))
    simp [List.takeWhile_cons, List.dropWhile_cons, hx, ihr.1, ihr.2]

/-- `takeWhile` passes over a leading digit run. -/
theorem takeWhile_digits_prefix (rest : List Char) :
    ∀ c : List Char, (∀ x ∈ c, Char.isDigit x) →
      (c ++ rest).takeWhile Char.isDigit = c ++ rest.takeWhile Char.isDigit := by
  intro c
  induction c with
  | nil =>
    intro _
    simp
  | cons x xs ih =>
    intro h
    have hx : Char.isDigit x = true := h x (List.mem_cons_self x xs)
    simp [List.takeWhile_cons, hx, ih (fun y hy => h y (List.mem_cons_of_mem x hy))]

/-- A successful parse exhibits the leading-triplet decomposition of its
input and of its own result. -/
theorem parseTriplet_some (l g : List Char) (h : parseTriplet l = some g) :
    ∃ a b c rest, l = a ++ '.' :: (b ++ '.' :: (c ++ rest)) ∧
      digitRun a ∧ digitRun b ∧ digitRun c ∧
      g = a ++ '.' :: (b ++ '.' :: c) := by
  simp only [parseTriplet] at h
  split at h
  · cases h
  · next d1 r2 heq1 =>
    split at h
    · cases h
    · next d2 r4 heq2 =>
      split at h
      · next hcond =>
        obtain ⟨hd1, hd2, hA, hB, hC⟩ := hcond
        subst hd1
        subst hd2
        have hg := Option.some.inj h
        refine ⟨l.takeWhile Char.isDigit, r2.takeWhile Char.isDigit,
          r4.takeWhile Char.isDigit, r4.dropWhile Char.isDigit, ?_,
          ⟨hA, fun c hc => List.mem_takeWhile_imp hc⟩,
          ⟨hB, fun c hc => List.mem_takeWhile_imp hc⟩,
          ⟨hC, fun c hc => List.mem_takeWhile_imp hc⟩, hg.symm⟩
        calc l = l.takeWhile Char.isDigit ++ l.dropWhile Char.isDigit :=
              (List.takeWhile_append_dropWhile _ _).symm
          _ = l.takeWhile Char.isDigit ++ '.' :: r2 := by rw [heq1]
          _ = l.takeWhile Char.isDigit ++ '.' ::
              (r2.takeWhile Char.isDigit ++ r2.dropWhile Char.isDigit) := by
              rw [List.takeWhile_append_dropWhile]
          _ = l.takeWhile Char.isDigit ++ '.' ::
              (r2.takeWhile Char.isDigit ++ '.' :: r4) := by rw [heq2]
          _ = l.takeWhile Char.isDigit ++ '.' :: (r2.takeWhile Char.isDigit ++ '.' ::
              (r4.takeWhile Char.isDigit ++ r4.dropWhile Char.isDigit)) := by
              rw [List.takeWhile_append_dropWhile]
      · cases h

/-- Running the parser on an exhibited leading-triplet decomposition: the
three digit runs are recovered, the third extended to its maximal run. -/
theorem parseTriplet_run (a b c rest : List Char)
    (hA : digitRun a) (hB : digitRun b) (hC : digitRun c) :
    parseTriplet (a ++ '.' :: (b ++ '.' :: (c ++ rest))) =
      some (a ++ '.' :: (b ++ '.' :: (c ++ rest.takeWhile Char.isDigit))) := by
  obtain ⟨hA1, hA2⟩ := hA
  obtain ⟨hB1, hB2⟩ := hB
  obtain ⟨hC1, hC2⟩ := hC
  have h1 := takeWhile_digits_append (b ++ '.' :: (c ++ rest)) a hA2
  have h2 := takeWhile_digits_append (c ++ rest) b hB2
  have h3 := takeWhile_digits_prefix rest c hC2
  have hc' : c ++ rest.takeWhile Char.isDigit ≠ [] := by
    cases c with
    | nil => exact absurd rfl hC1
    | cons x xs => simp
  simp only [parseTriplet, h1.1, h1.2, h2.1, h2.2, h3]
  rw [if_pos (by exact ⟨trivial, trivial, hA1, hB1, hc'⟩)]

/-- A parsable string matches the leading-triplet pattern. -/
theorem matchesTriplet_of_parse (v : String) (g : List Char)
    (h : parseTriplet v.data = some g) : matchesTriplet v := by
  obtain ⟨a, b, c, rest, hl, hA, hB, hC, _⟩ := parseTriplet_some v.data g h
  exact ⟨a, b, c, rest, hl, hA, hB, hC⟩

/-- Every event emitted by the polling loop is a status fetch. -/
theorem waitFrom_events_fetch (env : Nat → ParcelStatus) (parcel : Parcel)
    (stage : String) (max_time : Nat) :
    ∀ (r k : Nat) (e : Event), e ∈ (waitFrom env parcel stage max_time r k).1 →
      e = Event.fetch := by
  intro r
  induction r with
  | zero =>
    intro k e he
    simp [waitFrom] at he
  | succ r ih =>
    intro k e he
    by_cases h1 : (env k).stage = stage
    · simp [waitFrom, h1] at he
      exact he
    · by_cases h2 : (env k).state.errors = []
      · simp only [waitFrom] at he
        simp [h1, h2] at he
        rcases he with rfl | he
        · rfl
        · exact ih (k + 1) e he
      · simp [waitFrom, h1, h2] at he
        exact he

/-- Every event emitted by `wait_for_parcel_stage` is a status fetch. -/
theorem wait_events_fetch (env : Nat → ParcelStatus) (parcel : Parcel)
    (stage : String) (max_time k : Nat) (e : Event) :
    e ∈ (wait_for_parcel_stage env parcel stage max_time k).1 → e = Event.fetch :=
  waitFrom_events_fetch env parcel stage max_time max_time k e

/-- When every one of the `r` fetches reports neither the target stage nor
an error, the loop performs exactly `r` fetches and times out naming the
original budget. -/
theorem waitFrom_timeout (env : Nat → ParcelStatus) (parcel : Parcel)
    (stage : String) (max_time : Nat) :
    ∀ (r k : Nat),
      (∀ i, i < r → (env (k + i)).stage ≠ stage ∧ (env (k + i)).state.errors = []) →
      waitFrom env parcel stage max_time r k =
        (List.replicate r Event.fetch, k + r,
          .error (.stageTimeout parcel.product parcel.version stage max_time)) := by
  intro r
  induction r with
  | zero =>
    intro k h
    simp [waitFrom]
  | succ r ih =>
    intro k h
    have h0 := h 0 (Nat.succ_pos r)
    rw [Nat.add_zero] at h0
    have hrest : ∀ i, i < r →
        (env (k + 1 + i)).stage ≠ stage ∧ (env (k + 1 + i)).state.errors = [] := by
      intro i hi
      have := h (i + 1) (Nat.succ_lt_succ hi)
      rwa [show k + (i + 1) = k + 1 + i by omega] at this
    simp only [waitFrom]
    simp [h0.1, h0.2, ih (k + 1) hrest, List.replicate_succ]
    omega

/-- One polling attempt misses (no error), the next one observes the target
stage: the wait succeeds after exactly two fetches. -/
theorem waitFrom_second_hit (env : Nat → ParcelStatus) (parcel : Parcel)
    (stage : String) (max_time r k : Nat)
    (h1 : (env k).stage ≠ stage) (h1e : (env k).state.errors = [])
    (h2 : (env (k + 1)).stage = stage) :
    waitFrom env parcel stage max_time (r + 2) k =
      ([Event.fetch, Event.fetch], k + 2, .ok ()) := by
  simp only [waitFrom]
  simp [h1, h1e, h2]

/-- The driver entered at the DOWNLOADED stage whose distribution wait
fails: the trace is the distribution request followed by the wait's fetches,
and the failure is returned. -/
theorem ensure_downloaded_err (env : Nat → ParcelStatus) (parcel : Parcel)
    (max_time : Nat) (evs : List Event) (k : Nat) (e : UpgErr)
    (h : parcel.stage = "DOWNLOADED")
    (hw : wait_for_parcel_stage env parcel "DISTRIBUTED" max_time 0 = (evs, k, .error e)) :
    ensure_parcel_activated env parcel max_time = (Event.distribute :: evs, .error e) := by
  unfold ensure_parcel_activated
  rw [h]
  simp [hw]

/-- The driver entered at the DOWNLOADED stage whose distribution wait
succeeds after `k` fetches: the trace is the distribution request, the
wait's fetches, the activation request, then the activation wait's fetches,
and the run ends with the activation wait's outcome. -/
theorem ensure_downloaded_ok (env : Nat → ParcelStatus) (parcel : Parcel)
    (max_time : Nat) (evs : List Event) (k : Nat)
    (h : parcel.stage = "DOWNLOADED")
    (hw : wait_for_parcel_stage env parcel "DISTRIBUTED" max_time 0 = (evs, k, .ok ())) :
    ensure_parcel_activated env parcel max_time =
      (Event.distribute :: (evs ++ Event.activate ::
          (wait_for_parcel_stage env parcel "ACTIVATED" max_time k).1),
        (wait_for_parcel_stage env parcel "ACTIVATED" max_time k).2.2) := by
  unfold ensure_parcel_activated
  rw [h]
  simp [hw]

/-- C4: when all `max_time` polled statuses neither reach the target stage
nor carry errors, the wait performs exactly `max_time` fetches and fails
with a timeout naming the parcel's product and version, the target stage
and the budget; and in that scenario (entered at DOWNLOADED) the driver
issues no activation request and surfaces the timeout. -/
theorem c4_timeout :
    (∀ (env : Nat → ParcelStatus) (parcel : Parcel) (stage : String) (max_time k : Nat),
      0 < max_time →
      (∀ i, i < max_time → (env (k + i)).stage ≠ stage ∧ (env (k + i)).state.errors = []) →
      wait_for_parcel_stage env parcel stage max_time k =
        (List.replicate max_time Event.fetch, k + max_time,
          .error (.stageTimeout parcel.product parcel.version stage max_time))) ∧
    (∀ (env : Nat → ParcelStatus) (parcel : Parcel) (max_time : Nat),
      0 < max_time → parcel.stage = "DOWNLOADED" →
      (∀ i, i < max_time → (env i).stage ≠ "DISTRIBUTED" ∧ (env i).state.errors = []) →
      Event.activate ∉ (ensure_parcel_activated env parcel max_time).1 ∧
      (ensure_parcel_activated env parcel max_time).2 =
        .error (.stageTimeout parcel.product parcel.version "DISTRIBUTED" max_time)) := by
  constructor
  · intro env parcel stage max_time k _ h
    exact waitFrom_timeout env parcel stage max_time max_time k h
  · intro env parcel max_time _ h henv
    have henv0 : ∀ i, i < max_time →
        (env (0 + i)).stage ≠ "DISTRIBUTED" ∧ (env (0 + i)).state.errors = [] := by
      intro i hi
      rw [Nat.zero_add]
      exact henv i hi
    have hw : wait_for_parcel_stage env parcel "DISTRIBUTED" max_time 0 =
        (List.replicate max_time Event.fetch, 0 + max_time,
          .error (.stageTimeout parcel.product parcel.version "DISTRIBUTED" max_time)) :=
      waitFrom_timeout env parcel "DISTRIBUTED" max_time max_time 0 henv0
    rw [ensure_downloaded_err env parcel max_time (List.replicate max_time Event.fetch)
      (0 + max_time) _ h hw]
    constructor
    · simp [List.mem_replicate]
    · rfl

/-- Witness for C4: a status source stuck at DOWNLOADED for all 5 polls. -/
theorem c4_witness :
    wait_for_parcel_stage envStuck pX "DISTRIBUTED" 5 0 =
      (List.replicate 5 Event.fetch, 0 + 5,
        .error (.stageTimeout pX.product pX.version "DISTRIBUTED" 5)) ∧
    Event.activate ∉ (ensure_parcel_activated envStuck pX 5).1 ∧
    (ensure_parcel_activated envStuck pX 5).2 =
      .error (.stageTimeout pX.product pX.version "DISTRIBUTED" 5) := by
  refine ⟨c4_timeout.1 envStuck pX "DISTRIBUTED" 5 0 (by decide) ?_,
          c4_timeout.2 envStuck pX 5 (by decide) (by decide) ?_⟩ <;>
  · intro i _
    exact ⟨by simp [envStuck], rfl⟩

/-- C3: a package observed at DOWNLOADED with budget 5 whose second poll
reports DISTRIBUTED: the driver issues no download request, exactly one
distribution request, two fetches for that stage, then the activation
request (followed only by the activation wait's fetches); and in general a
package entered at DOWNLOADED never receives a download request, resuming
instead of restarting. -/
theorem c3_resume_scenario :
    (∀ (env : Nat → ParcelStatus) (parcel : Parcel),
      parcel.stage = "DOWNLOADED" →
      (env 0).stage ≠ "DISTRIBUTED" → (env 0).state.errors = [] →
      (env 1).stage = "DISTRIBUTED" →
      ∃ tail, (ensure_parcel_activated env parcel 5).1 =
          Event.distribute :: Event.fetch :: Event.fetch :: Event.activate :: tail ∧
        ∀ e ∈ tail, e = Event.fetch) ∧
    (∀ (env : Nat → ParcelStatus) (parcel : Parcel) (max_time : Nat),
      parcel.stage = "DOWNLOADED" →
      Event.download ∉ (ensure_parcel_activated env parcel max_time).1) := by
  constructor
  · intro env parcel h h1 h1e h2
    have hw : wait_for_parcel_stage env parcel "DISTRIBUTED" 5 0 =
        ([Event.fetch, Event.fetch], 0 + 2, .ok ()) :=
      waitFrom_second_hit env parcel "DISTRIBUTED" 5 3 0 h1 h1e h2
    rw [ensure_downloaded_ok env parcel 5 [Event.fetch, Event.fetch] (0 + 2) h hw]
    refine ⟨(wait_for_parcel_stage env parcel "ACTIVATED" 5 (0 + 2)).1, rfl, ?_⟩
    intro e he
    exact wait_events_fetch env parcel "ACTIVATED" 5 (0 + 2) e he
  · intro env parcel max_time h hmem
    rcases hw : wait_for_parcel_stage env parcel "DISTRIBUTED" max_time 0 with ⟨evs, k, res⟩
    have hevs : ∀ e ∈ evs, e = Event.fetch := by
      intro e he
      apply wait_events_fetch env parcel "DISTRIBUTED" max_time 0 e
      rw [hw]
      exact he
    cases res with
    | error e =>
      rw [ensure_downloaded_err env parcel max_time evs k e h hw] at hmem
      rcases List.mem_cons.mp hmem with h' | h'
      · cases h'
      · cases hevs _ h'
    | ok u =>
      cases u
      rw [ensure_downloaded_ok env parcel max_time evs k h hw] at hmem
      rcases List.mem_cons.mp hmem with h' | h'
      · cases h'
      · rcases List.mem_append.mp h' with h'' | h''
        · cases hevs _ h''
        · rcases List.mem_cons.mp h'' with h3 | h3
          · cases h3
          · cases wait_events_fetch env parcel "ACTIVATED" max_time k _ h3

/-- Witness for C3: the concrete second-poll status source. -/
theorem c3_witness :
    (∃ tail, (ensure_parcel_activated envSecond pX 5).1 =
        Event.distribute :: Event.fetch :: Event.fetch :: Event.activate :: tail ∧
      ∀ e ∈ tail, e = Event.fetch) ∧
    Event.download ∉ (ensure_parcel_activated envSecond pX 5).1 :=
  ⟨c3_resume_scenario.1 envSecond pX rfl (by decide) rfl (by decide),
   c3_resume_scenario.2 envSecond pX 5 rfl⟩

/-- C9 as amended: a given non-empty name is looked up directly regardless
of the cluster list; with no name, or an empty name (Python's falsy string),
zero clusters fail with the missing-cluster error, two or more fail with the
ambiguous-cluster error, and a sole cluster is returned while its display
name is announced. -/
theorem c9_find_cluster :
    (∀ (get_cluster : String → Except UpgErr Cluster) (all_clusters : List Cluster)
        (s : String), s ≠ "" →
      find_cluster get_cluster all_clusters (some s) = ([], get_cluster s)) ∧
    (∀ (get_cluster : String → Except UpgErr Cluster) (n : Option String),
      n = none ∨ n = some "" →
      find_cluster get_cluster [] n = ([], .error .noClusters)) ∧
    (∀ (get_cluster : String → Except UpgErr Cluster) (n : Option String)
        (c1 c2 : Cluster) (rest : List Cluster), n = none ∨ n = some "" →
      find_cluster get_cluster (c1 :: c2 :: rest) n = ([], .error .ambiguousClusters)) ∧
    (∀ (get_cluster : String → Except UpgErr Cluster) (n : Option String)
        (c : Cluster), n = none ∨ n = some "" →
      find_cluster get_cluster [c] n =
        (["Found cluster: " ++ c.displayName], .ok c)) := by
  refine ⟨?_, ?_, ?_, ?_⟩
  · intro gc cls s hs
    simp [find_cluster, hs]
  · intro gc n hn
    rcases hn with rfl | rfl <;> simp [find_cluster]
  · intro gc n c1 c2 rest hn
    rcases hn with rfl | rfl <;> simp [find_cluster]
  · intro gc n c hn
    rcases hn with rfl | rfl <;> simp [find_cluster]

/-- Witness for C9: all four cases on concrete inputs. -/
theorem c9_witness :
    find_cluster c9Lookup [⟨"c1", "C1"⟩, ⟨"c2", "C2"⟩] (some "c9") = ([], c9Lookup "c9") ∧
    find_cluster c9Lookup [] none = ([], .error .noClusters) ∧
    find_cluster c9Lookup [⟨"c1", "C1"⟩, ⟨"c2", "C2"⟩] none =
      ([], .error .ambiguousClusters) ∧
    find_cluster c9Lookup [⟨"c1", "C1"⟩] none =
      (["Found cluster: " ++ (⟨"c1", "C1"⟩ : Cluster).displayName], .ok ⟨"c1", "C1"⟩) :=
  ⟨c9_find_cluster.1 c9Lookup _ "c9" (by decide),
   c9_find_cluster.2.1 c9Lookup none (Or.inl rfl),
   c9_find_cluster.2.2.1 c9Lookup none _ _ _ (Or.inl rfl),
   c9_find_cluster.2.2.2 c9Lookup none _ (Or.inl rfl)⟩

/-- Counterexample for C9 as stated: the name `""` is given, two clusters
exist, yet resolution takes the enumeration path and fails as ambiguous
instead of looking the name up directly (Python's `if cluster_name:` is
falsy on the empty string). -/
theorem c9_counterexample :
    find_cluster c9Lookup [⟨"c1", "C1"⟩, ⟨"c2", "C2"⟩] (some "") =
      ([], .error .ambiguousClusters) ∧
    find_cluster c9Lookup [⟨"c1", "C1"⟩, ⟨"c2", "C2"⟩] (some "") ≠
      ([], c9Lookup "") := by
  refine ⟨rfl, fun h => ?_⟩
  have h2 := congrArg Prod.snd h
  simp [find_cluster, c9Lookup] at h2

/-- C8: release extraction returns the leading MAJOR.MINOR.PATCH triplet
(`release("1.4.0-1.cdh5.12.0.p0.814") = "1.4.0"`); on every string
matching the leading-triplet pattern it succeeds and is idempotent
(extracting from its own result returns that result unchanged); on every
string not matching the pattern it raises the malformed-version error. -/
theorem c8_release_extraction :
    get_release_version "1.4.0-1.cdh5.12.0.p0.814" = .ok "1.4.0" ∧
    (∀ v, matchesTriplet v →
      ∃ r, get_release_version v = .ok r ∧ get_release_version r = .ok r) ∧
    (∀ v, ¬ matchesTriplet v →
      get_release_version v = .error (.malformedVersion v)) := by
  refine ⟨rfl, ?_, ?_⟩
  · intro v hm
    obtain ⟨a, b, c, rest, hl, hA, hB, hC⟩ := hm
    have hrun := parseTriplet_run a b c rest hA hB hC
    have hv : parseTriplet v.data =
        some (a ++ '.' :: (b ++ '.' :: (c ++ rest.takeWhile Char.isDigit))) := by
      rw [hl]
      exact hrun
    have hC2 : digitRun (c ++ rest.takeWhile Char.isDigit) := by
      constructor
      · cases c with
        | nil => exact absurd rfl hC.1
        | cons x xs => simp
      · intro x hx
        rcases List.mem_append.mp hx with h1 | h1
        · exact hC.2 x h1
        · exact List.mem_takeWhile_imp h1
    have hrun2 := parseTriplet_run a b (c ++ rest.takeWhile Char.isDigit) [] hA hB hC2
    simp only [List.append_nil, List.takeWhile_nil] at hrun2
    refine ⟨String.mk (a ++ '.' :: (b ++ '.' :: (c ++ rest.takeWhile Char.isDigit))),
      ?_, ?_⟩
    · unfold get_release_version
      rw [hv]
    · unfold get_release_version
      rw [show (String.mk (a ++ '.' :: (b ++ '.' :: (c ++ rest.takeWhile Char.isDigit)))).data
        = a ++ '.' :: (b ++ '.' :: (c ++ rest.takeWhile Char.isDigit)) from rfl, hrun2]
  · intro v hm
    cases hp : parseTriplet v.data with
    | none =>
      unfold get_release_version
      rw [hp]
    | some g => exact absurd (matchesTriplet_of_parse v g hp) hm

/-- Witness for C8: idempotent extraction on "1.2.3", failure on the empty
string. -/
theorem c8_witness :
    (∃ r, get_release_version "1.2.3" = .ok r ∧ get_release_version r = .ok r) ∧
    get_release_version "" = .error (.malformedVersion "") :=
  ⟨c8_release_extraction.2.1 "1.2.3"
      ⟨['1'], ['2'], ['3'], [], rfl, ⟨by decide, by decide⟩, ⟨by decide, by decide⟩,
        ⟨by decide, by decide⟩⟩,
   c8_release_extraction.2.2 "" (by
      intro hm
      obtain ⟨a, b, c, rest, heq, _, _, _⟩ := hm
      simp at heq)⟩

end KuduUpgrade
